import Mathlib

/-!
Verification development for the stack reconciler and batched-update
scheduler of this repository (ReactCompositeComponent, ReactUpdates,
CallbackQueue). Each source function the claims mention is shallowly
embedded as an executable Lean definition; machine behaviour such as
object identity is made explicit (objects carry a numeric identity, a
fresh identity is threaded where the source allocates a new object).
-/

/-! ## JavaScript value model

A plain object is a list of string-keyed integer fields in insertion
order. A JS value relevant to the state queue is null, a plain object
(with its identity), or a function (with its identity); the function
returns the fields of the partial state it produces when called with
the accumulated state, props and context. -/

/-- Enumerable own fields of a plain object, in insertion order. -/
abbrev Fields := List (String × Int)

/-- Field lookup, mirroring property access on a plain object. -/
def lookupF (fs : Fields) (k : String) : Option Int :=
  (fs.find? (fun p => p.1 == k)).map (fun p => p.2)

/-- One step of Object.assign: write one key, overwriting in place when the
key exists and appending otherwise. -/
def setField (o : Fields) (k : String) (v : Int) : Fields :=
  if o.any (fun p => p.1 == k) then
    o.map (fun p => if p.1 == k then (k, v) else p)
  else
    o ++ [(k, v)]

/-- Object.assign(target, src): copy every enumerable own field of src onto
target, in order. -/
def objAssign (target src : Fields) : Fields :=
  src.foldl (fun acc p => setField acc p.1 p.2) target

/-- A JS value as stored in the pending state queue or in inst.state:
null, a plain object with identity, or an updater function with
identity. -/
inductive JVal : Type where
  | jnull : JVal
  | obj (id : Nat) (fields : Fields) : JVal
  | func (id : Nat) (f : Fields → Fields → Fields → Fields) : JVal

/-- The enumerable own fields of a value (Object.assign with a null or
function source copies nothing). -/
def JVal.fieldsOf : JVal → Fields
  | .jnull => []
  | .obj _ fs => fs
  | .func _ _ => []

/-! ## ReactCompositeComponent._processPendingState

Direct translation of the source: the queue is the nullable
_pendingStateQueue, the replace flag is _pendingReplaceState, and the
single fresh object that Object.assign allocates is given the fresh
identity freshId. The source also nulls the queue and clears the flag;
that clearing is modelled in the instance-level wrappers below. -/

/-- _processPendingState(props, context) as a pure function of the
instance state, the pending queue and the replace flag. -/
def processPendingState (freshId : Nat) (state : JVal)
    (queue : Option (List JVal)) (replace : Bool)
    (props context : Fields) : JVal :=
  match queue with
  | none => state
  | some q =>
    if replace && q.length == 1 then
      q.headD state
    else
      let start : Fields :=
        objAssign [] (if replace then (q.headD state).fieldsOf else state.fieldsOf)
      let rest : List JVal := if replace then q.drop 1 else q
      let final : Fields := rest.foldl
        (fun acc e =>
          match e with
          | .jnull => acc
          | .obj _ fs => objAssign acc fs
          | .func _ f => objAssign acc (f acc props context))
        start
      .obj freshId final

/-! ## shallowEqual and the shouldComponentUpdate decision -/

/-- shallowEqual on two plain objects: same keys with equal values, one
level deep. -/
def shallowEqualF (a b : Fields) : Bool :=
  a.all (fun p => lookupF b p.1 == some p.2)
    && b.all (fun p => lookupF a p.1 == some p.2)

/-- shallowEqual on two state values: Object.is identity first, then the
one-level key and value comparison for two plain objects; a null or a
function is only shallow-equal to itself. -/
def shallowEqualJ : JVal → JVal → Bool
  | .jnull, .jnull => true
  | .obj i fs, .obj j gs => (i == j) || shallowEqualF fs gs
  | .func i _, .func j _ => i == j
  | _, _ => false

/-- CompositeTypes from the source. -/
inductive CompositeType : Type where
  | ImpureClass
  | PureClass
  | StatelessFunctional
deriving DecidableEq

/-- The per-instance inputs of updateComponent that feed the shouldUpdate
decision: pending work flags, the composite kind, the optional
shouldComponentUpdate hook and the current state with the pending queue. -/
structure UpdInst where
  instState : JVal
  pendingStateQueue : Option (List JVal)
  pendingReplaceState : Bool
  pendingForceUpdate : Bool
  compositeType : CompositeType
  shouldComponentUpdate : Option (Fields → JVal → Fields → Bool)
  allocId : Nat

/-- The shouldUpdate fragment of ReactCompositeComponent.updateComponent:
merge the pending state queue into nextState, then decide shouldUpdate
exactly as the source does (default true; skipped entirely when
_pendingForceUpdate is set; the hook result when the hook exists; the
shallow comparison for a PureClass). Returns the decision, the merged
next state, and the value of _pendingForceUpdate after the call. -/
def updateComponent (u : UpdInst) (prevProps nextProps nextContext : Fields) :
    Bool × JVal × Bool :=
  let nextState := processPendingState u.allocId u.instState
    u.pendingStateQueue u.pendingReplaceState nextProps nextContext
  let shouldUpdate :=
    if !u.pendingForceUpdate then
      match u.shouldComponentUpdate with
      | some f => f nextProps nextState nextContext
      | none =>
        if u.compositeType = CompositeType.PureClass then
          !(shallowEqualF prevProps nextProps) || !(shallowEqualJ u.instState nextState)
        else
          true
    else
      true
  let forceAfter := if shouldUpdate then false else u.pendingForceUpdate
  (shouldUpdate, nextState, forceAfter)

/-- The shouldUpdate decision tree as the specification words it: if the
pending force flag is set, always true; else if the unit defines a
shouldUpdate hook, its boolean result; else if the unit is a pure
variant, true iff a shallow one-level comparison finds the previous
props unequal to the next props or the current state unequal to the
merged next state; else default true. Stated independently of the code
path so the theorem below compares the two. -/
def shouldUpdateSpec (force : Bool)
    (hook : Option (Fields → JVal → Fields → Bool))
    (ctype : CompositeType) (prevProps nextProps : Fields)
    (curState nextState : JVal) (nextContext : Fields) : Bool :=
  if force then
    true
  else
    match hook with
    | some f => f nextProps nextState nextContext
    | none =>
      if ctype = CompositeType.PureClass then
        !(shallowEqualF prevProps nextProps && shallowEqualJ curState nextState)
      else
        true

/-- Claim C3: with the replace flag set and exactly one queue entry the
merge returns that entry verbatim (same value, same identity), so in
particular merging a single replace entry S yields S itself; and with
the replace flag set the accumulation starts from the first queue entry
instead of the existing state, so the result is independent of all
state computed before the replace entry. -/
theorem processPendingState_replace_law :
    (∀ (freshId : Nat) (st : JVal) (e : JVal) (props context : Fields),
      processPendingState freshId st (some [e]) true props context = e)
    ∧ (∀ (freshId : Nat) (st st' : JVal) (e : JVal) (es : List JVal)
        (props context : Fields),
      processPendingState freshId st (some (e :: es)) true props context
        = processPendingState freshId st' (some (e :: es)) true props context) := by
  constructor
  · intro freshId st e props context
    simp [processPendingState]
  · intro freshId st st' e es props context
    cases es with
    | nil => simp [processPendingState]
    | cons f fs => simp [processPendingState]

/-- Claim C8: merging an absent (null) pending-state queue returns the
existing state value unchanged, the very same object, independent of the
replace flag, props and context. -/
theorem processPendingState_empty_queue :
    ∀ (freshId : Nat) (st : JVal) (replace : Bool) (props context : Fields),
      processPendingState freshId st none replace props context = st := by
  intro freshId st replace props context
  rfl

/-- Claim C4: during an update, the shouldUpdate decision computed by
updateComponent coincides, for every instance configuration and every
pair of prop objects, with the specification decision tree: force flag
wins, then the shouldComponentUpdate hook, then the pure-variant
shallow comparison against the merged next state, else default true. -/
theorem updateComponent_shouldUpdate_spec :
    ∀ (u : UpdInst) (prevProps nextProps nextContext : Fields),
      (updateComponent u prevProps nextProps nextContext).1
        = shouldUpdateSpec u.pendingForceUpdate u.shouldComponentUpdate
            u.compositeType prevProps nextProps u.instState
            (updateComponent u prevProps nextProps nextContext).2.1 nextContext := by
  intro u prevProps nextProps nextContext
  cases hf : u.pendingForceUpdate with
  | true => simp [updateComponent, shouldUpdateSpec, hf]
  | false =>
    cases hh : u.shouldComponentUpdate with
    | some f => simp [updateComponent, shouldUpdateSpec, hf, hh]
    | none =>
      by_cases hc : u.compositeType = CompositeType.PureClass
      · simp [updateComponent, shouldUpdateSpec, hf, hh, hc, Bool.not_and]
      · simp [updateComponent, shouldUpdateSpec, hf, hh, hc]

/-! ## ReactUpdates: the batched-update scheduler

dirtyComponents, asapCallbackQueue and asapEnqueued are the module-level
singletons of ReactUpdates. A dirty component is modelled by its
_mountOrder label paired with the effect its reconciliation has on the
scheduler; an asap callback is its label paired with its effect. -/

/-- The scheduler-visible effect of running a reconciliation or an asap
callback: nothing, two effects in sequence, a call to ReactUpdates.asap
registering a labelled callback, or a call to enqueueUpdate pushing a
labelled dirty component. -/
inductive Act : Type where
  | anoop : Act
  | aseq (a b : Act) : Act
  | callAsap (label : Nat) (cb : Act) : Act
  | enqDirty (label : Nat) (cb : Act) : Act
deriving DecidableEq

/-- Observable events of a flush: a dirty component processed by
runBatchedUpdates, an asap callback invoked by the drain, an asap
callback registered, a dirty component pushed. -/
inductive Ev : Type where
  | procDirty (label : Nat) : Ev
  | runAsap (label : Nat) : Ev
  | schedAsap (label : Nat) : Ev
  | schedDirty (label : Nat) : Ev
deriving DecidableEq

/-- The module-level state of ReactUpdates. -/
structure SState where
  dirtyComponents : List (Nat × Act)
  asapQueue : List (Nat × Act)
  asapEnqueued : Bool
deriving DecidableEq

/-- Run one effect against the scheduler state: asap(fn) appends to the
current asap queue and sets the pending flag; enqueueUpdate appends to
dirtyComponents. Returns the new state and the registration events. -/
def runAct : Act → SState → SState × List Ev
  | .anoop, s => (s, [])
  | .aseq a b, s =>
    let r1 := runAct a s
    let r2 := runAct b r1.1
    (r2.1, r1.2 ++ r2.2)
  | .callAsap l c, s =>
    ({ s with asapQueue := s.asapQueue ++ [(l, c)], asapEnqueued := true },
      [Ev.schedAsap l])
  | .enqDirty l c, s =>
    ({ s with dirtyComponents := s.dirtyComponents ++ [(l, c)] },
      [Ev.schedDirty l])

/-- The asap registrations an effect performs, in order. -/
def asapCalls : Act → List (Nat × Act)
  | .anoop => []
  | .aseq a b => asapCalls a ++ asapCalls b
  | .callAsap l c => [(l, c)]
  | .enqDirty _ _ => []

/-- The dirty-component registrations an effect performs, in order. -/
def dirtyCalls : Act → List (Nat × Act)
  | .anoop => []
  | .aseq a b => dirtyCalls a ++ dirtyCalls b
  | .callAsap _ _ => []
  | .enqDirty l c => [(l, c)]

/-- The events an effect emits. -/
def schedTrace : Act → List Ev
  | .anoop => []
  | .aseq a b => schedTrace a ++ schedTrace b
  | .callAsap l _ => [Ev.schedAsap l]
  | .enqDirty l _ => [Ev.schedDirty l]

/-- mountOrderComparator as an ordering relation on dirty components. -/
def mountOrderLe (x y : Nat × Act) : Prop := x.1 ≤ y.1

instance : DecidableRel mountOrderLe := fun x y => Nat.decLe x.1 y.1

instance : IsTotal (Nat × Act) mountOrderLe := ⟨fun x y => Nat.le_total x.1 y.1⟩

instance : IsTrans (Nat × Act) mountOrderLe := ⟨fun _ _ _ => Nat.le_trans⟩

/-- dirtyComponents.sort(mountOrderComparator): a comparison sort by
ascending _mountOrder, modelled by insertion sort. -/
def sortDirty (d : List (Nat × Act)) : List (Nat × Act) :=
  List.insertionSort mountOrderLe d

/-- The loop body of runBatchedUpdates over the snapshot window: process
each dirty component in order (performUpdateIfNecessary may register
further asap callbacks and push further dirty components beyond the
window). -/
def processWindow : List (Nat × Act) → SState → SState × List Ev
  | [], s => (s, [])
  | (l, a) :: rest, s =>
    let r1 := runAct a s
    let r2 := processWindow rest r1.1
    (r2.1, (Ev.procDirty l :: r1.2) ++ r2.2)

/-- queue.notifyAll() over the captured asap queue: invoke each callback
once, in order; its effects hit the already swapped-in fresh state. -/
def drainAsap : List (Nat × Act) → SState → SState × List Ev
  | [], s => (s, [])
  | (l, c) :: rest, s =>
    let r1 := runAct c s
    let r2 := drainAsap rest r1.1
    (r2.1, (Ev.runAsap l :: r1.2) ++ r2.2)

/-- flushBatchedUpdates: loop while dirtyComponents is non-empty or
asapEnqueued. If dirty components exist: snapshot the length, sort the
whole list by mount order in place, process the window; on close, if the
list grew during the pass, splice off the processed window and flush the
remainder recursively, else clear the list. Then, if asapEnqueued: swap
in a fresh empty queue and clear the flag before draining the captured
queue. Fuel bounds the number of loop iterations and nested flushes. -/
def flushBatchedUpdates (fuel : Nat) (s : SState) : Option (SState × List Ev) :=
  match fuel with
  | 0 => none
  | fuel + 1 =>
    if s.dirtyComponents.isEmpty && !s.asapEnqueued then
      some (s, [])
    else
      let stepA : Option (SState × List Ev) :=
        if s.dirtyComponents.isEmpty then
          some (s, [])
        else
          let len := s.dirtyComponents.length
          let sorted := sortDirty s.dirtyComponents
          let rA := processWindow sorted { s with dirtyComponents := sorted }
          if rA.1.dirtyComponents.length ≠ len then
            match flushBatchedUpdates fuel
                { rA.1 with dirtyComponents := rA.1.dirtyComponents.drop len } with
            | none => none
            | some (sC, trC) => some (sC, rA.2 ++ trC)
          else
            some ({ rA.1 with dirtyComponents := [] }, rA.2)
      match stepA with
      | none => none
      | some (s1, tr1) =>
        let stepB : SState × List Ev :=
          if s1.asapEnqueued then
            drainAsap s1.asapQueue { s1 with asapQueue := [], asapEnqueued := false }
          else
            (s1, [])
        match flushBatchedUpdates fuel stepB.1 with
        | none => none
        | some (s2, tr2) => some (s2, (tr1 ++ stepB.2) ++ tr2)

/-! ## mountComponent and the mount-order counter -/

/-- A forest of composite units to mount, sibling-encoded: empty, or a
first unit (with the presence of its componentDidMount hook and its
rendered child forest) followed by its sibling forest. -/
inductive CTree : Type where
  | nil : CTree
  | node (hasDidMount : Bool) (child : CTree) (sibling : CTree) : CTree
deriving DecidableEq

/-- Observable events of the mount sequence. -/
inductive MEvent : Type where
  | stampMountOrder (order : Nat) : MEvent
  | enqDidMount (order : Nat) : MEvent
deriving DecidableEq

/-- The mounted forest: each node remembers its stamped mount order. -/
inductive OTree : Type where
  | onil : OTree
  | onode (order : Nat) (child : OTree) (sibling : OTree) : OTree
deriving DecidableEq

/-- mountComponent over a forest. For each unit, in source order: stamp
_mountOrder from the strictly increasing counter nextMountID (the second
statement of mountComponent, before anything else observable), then
recursively mount the rendered child forest (performInitialMount), then
enqueue componentDidMount on the transaction callback queue; afterwards
the sibling units. Returns the advanced counter, the mounted forest and
the event trace. -/
def mountComponentTree : CTree → Nat → Nat × OTree × List MEvent
  | .nil, n => (n, .onil, [])
  | .node dm c s, n =>
    let rc := mountComponentTree c (n + 1)
    let rs := mountComponentTree s rc.1
    (rs.1, .onode n rc.2.1 rs.2.1,
      (MEvent.stampMountOrder n
        :: (rc.2.2 ++ (if dm then [MEvent.enqDidMount n] else []))) ++ rs.2.2)

/-- All mount orders stamped in a mounted forest. -/
def subOrders : OTree → List Nat
  | .onil => []
  | .onode o c s => o :: (subOrders c ++ subOrders s)

/-- Every node of a mounted forest, paired with its rendered child forest
(siblings of the node are not part of its subtree). -/
def nodesOf : OTree → List (Nat × OTree)
  | .onil => []
  | .onode o c s => (o, c) :: (nodesOf c ++ nodesOf s)

/-- a is an ancestor of b in a mounted forest: some node carries mount
order a and b is stamped inside its rendered child forest. -/
def AncestorOf (a b : Nat) (f : OTree) : Prop :=
  ∃ p ∈ nodesOf f, p.1 = a ∧ b ∈ subOrders p.2

instance (a b : Nat) (f : OTree) : Decidable (AncestorOf a b f) := by
  unfold AncestorOf
  infer_instance

/-- The counter returned by mountComponentTree never decreases, and every
order stamped in the mounted forest lies in the consumed counter
window. -/
theorem mountComponentTree_orders_bound (f : CTree) :
    ∀ n : Nat,
      n ≤ (mountComponentTree f n).1
      ∧ ∀ o ∈ subOrders (mountComponentTree f n).2.1,
          n ≤ o ∧ o < (mountComponentTree f n).1 := by
  induction f with
  | nil =>
    intro n
    simp [mountComponentTree, subOrders]
  | node dm c s ihc ihs =>
    intro n
    obtain ⟨hc1, hc2⟩ := ihc (n + 1)
    obtain ⟨hs1, hs2⟩ := ihs ((mountComponentTree c (n + 1)).1)
    simp only [mountComponentTree, subOrders, List.mem_cons, List.mem_append]
    constructor
    · omega
    · rintro o (rfl | ho | ho)
      · omega
      · have := hc2 o ho
        omega
      · have := hs2 o ho
        omega

/-- Parent before child: when a is an ancestor of b in a mounted forest,
the mount order of a is strictly below that of b, because mountComponent
stamps the order before recursively mounting the rendered subtree. -/
theorem mountComponentTree_ancestor_lt (f : CTree) :
    ∀ (n a b : Nat), AncestorOf a b (mountComponentTree f n).2.1 → a < b := by
  induction f with
  | nil =>
    intro n a b h
    unfold AncestorOf at h
    simp [mountComponentTree, nodesOf] at h
  | node dm c s ihc ihs =>
    intro n a b h
    unfold AncestorOf at h
    simp only [mountComponentTree, nodesOf, List.mem_cons, List.mem_append] at h
    obtain ⟨p, hp, ha, hb⟩ := h
    rcases hp with rfl | hp | hp
    · obtain ⟨-, hbound⟩ := mountComponentTree_orders_bound c (n + 1)
      have := hbound b hb
      omega
    · exact ihc (n + 1) a b ⟨p, hp, ha, hb⟩
    · exact ihs ((mountComponentTree c (n + 1)).1) a b ⟨p, hp, ha, hb⟩

/-- Claim C7 counterexample: mounting, with the counter at 1, a unit that
has a componentDidMount hook and renders one child produces the trace
stamp(1), stamp(2), enqueueDidMount(1). The parent mount order is
stamped before the child subtree is mounted and before the afterMount
hook is enqueued, so it is not stamped as the final step of the mount
sequence, contrary to the claim. -/
theorem mountOrder_stamped_first_counterexample :
    (mountComponentTree (CTree.node true (CTree.node false CTree.nil CTree.nil) CTree.nil) 1).2.2
      = [MEvent.stampMountOrder 1, MEvent.stampMountOrder 2, MEvent.enqDidMount 1]
    ∧ ¬ (List.findIdx (fun e => e == MEvent.enqDidMount 1)
          (mountComponentTree (CTree.node true (CTree.node false CTree.nil CTree.nil) CTree.nil) 1).2.2
        < List.findIdx (fun e => e == MEvent.stampMountOrder 1)
          (mountComponentTree (CTree.node true (CTree.node false CTree.nil CTree.nil) CTree.nil) 1).2.2) := by
  decide

/-- Claim C7 amended: during Mount, _mountOrder is stamped from the
process-wide strictly increasing counter as the FIRST step of the mount
sequence, before the child descriptor is rendered, before the child
instance is mounted and stored, and before the afterMount hook is
enqueued: the stamp event is the head of the mount trace. -/
theorem mountComponent_stamps_order_first :
    ∀ (dm : Bool) (c s : CTree) (n : Nat),
      ((mountComponentTree (CTree.node dm c s) n).2.2).head?
        = some (MEvent.stampMountOrder n) := by
  intro dm c s n
  simp [mountComponentTree]

/-- Index of the first occurrence of a mount order in a processing
sequence. -/
def firstPos (a : Nat) (l : List Nat) : Nat := l.findIdx (fun x => x == a)

/-- In an ascending sequence, every occurrence of a smaller element comes
before every occurrence of a larger one. -/
theorem firstPos_lt_of_sorted (a b : Nat) (hab : a < b) :
    ∀ l : List Nat, List.Sorted (· ≤ ·) l → a ∈ l → b ∈ l →
      firstPos a l < firstPos b l := by
  intro l
  induction l with
  | nil =>
    intro _ ha _
    simp at ha
  | cons x xs ih =>
    intro hs ha hb
    rw [List.sorted_cons] at hs
    obtain ⟨hx, hs'⟩ := hs
    by_cases hxa : x = a
    · subst hxa
      have hxb : (x == b) = false := by
        simp only [beq_eq_false_iff_ne]
        omega
      simp [firstPos, List.findIdx_cons, hxb]
    · have haxs : a ∈ xs := by
        rcases List.mem_cons.mp ha with h | h
        · exact absurd h.symm hxa
        · exact h
      have hxb : x ≠ b := by
        intro h
        subst h
        have := hx a haxs
        omega
      have hbxs : b ∈ xs := by
        rcases List.mem_cons.mp hb with h | h
        · exact absurd h.symm hxb
        · exact h
      have hxa' : (x == a) = false := by
        simp only [beq_eq_false_iff_ne]
        exact hxa
      have hxb' : (x == b) = false := by
        simp only [beq_eq_false_iff_ne]
        exact hxb
      have := ih hs' haxs hbxs
      simp only [firstPos, List.findIdx_cons, hxa', hxb', cond_false] at *
      omega

/-- The order in which one flush pass of runBatchedUpdates processes the
dirty components: the whole dirtyComponents list (the snapshot window
captured at pass start is the entire list) sorted ascending by
_mountOrder. -/
def runBatchedUpdatesOrder (dirty : List (Nat × Act)) : List Nat :=
  (sortDirty dirty).map Prod.fst

/-- Claim C1: the dirty list is processed in ascending mount order, the
mount order of an ancestor is strictly below that of any descendant
created while mounting its rendered subtree, and hence an ancestor and a
descendant both marked dirty in the same pass are processed with the
ancestor strictly first. -/
theorem runBatchedUpdates_ancestor_before_descendant
    (f : CTree) (n : Nat) (a b : Nat) (dirty : List (Nat × Act))
    (hanc : AncestorOf a b (mountComponentTree f n).2.1)
    (ha : a ∈ dirty.map Prod.fst) (hb : b ∈ dirty.map Prod.fst) :
    a < b
    ∧ List.Sorted (· ≤ ·) (runBatchedUpdatesOrder dirty)
    ∧ firstPos a (runBatchedUpdatesOrder dirty)
        < firstPos b (runBatchedUpdatesOrder dirty) := by
  have hab : a < b := mountComponentTree_ancestor_lt f n a b hanc
  have hsorted : List.Sorted (· ≤ ·) (runBatchedUpdatesOrder dirty) := by
    have h1 := List.sorted_insertionSort mountOrderLe dirty
    unfold runBatchedUpdatesOrder sortDirty
    rw [List.Sorted, List.pairwise_map]
    exact h1
  have hmem : ∀ x : Nat, x ∈ dirty.map Prod.fst → x ∈ runBatchedUpdatesOrder dirty := by
    intro x hx
    unfold runBatchedUpdatesOrder sortDirty
    have hperm := (List.perm_insertionSort mountOrderLe dirty).map Prod.fst
    exact hperm.mem_iff.mpr hx
  exact ⟨hab, hsorted,
    firstPos_lt_of_sorted a b hab _ hsorted (hmem a ha) (hmem b hb)⟩

/-- Claim C1 witness: a parent of mount order 1 renders a child of mount
order 2; both are marked dirty (child pushed first); the pass still
processes the parent before the child. -/
theorem runBatchedUpdates_ancestor_before_descendant_witness :
    AncestorOf 1 2
      (mountComponentTree (CTree.node false (CTree.node false CTree.nil CTree.nil) CTree.nil) 1).2.1
    ∧ (1 ∈ ([(2, Act.anoop), (1, Act.anoop)].map Prod.fst))
    ∧ (2 ∈ ([(2, Act.anoop), (1, Act.anoop)].map Prod.fst))
    ∧ (1 < 2
      ∧ List.Sorted (· ≤ ·) (runBatchedUpdatesOrder [(2, Act.anoop), (1, Act.anoop)])
      ∧ firstPos 1 (runBatchedUpdatesOrder [(2, Act.anoop), (1, Act.anoop)])
          < firstPos 2 (runBatchedUpdatesOrder [(2, Act.anoop), (1, Act.anoop)])) := by
  have h1 : AncestorOf 1 2
      (mountComponentTree (CTree.node false (CTree.node false CTree.nil CTree.nil) CTree.nil) 1).2.1 := by
    decide
  have h2 : (1 : Nat) ∈ ([(2, Act.anoop), (1, Act.anoop)].map Prod.fst) := by decide
  have h3 : (2 : Nat) ∈ ([(2, Act.anoop), (1, Act.anoop)].map Prod.fst) := by decide
  exact ⟨h1, h2, h3,
    runBatchedUpdates_ancestor_before_descendant
      (CTree.node false (CTree.node false CTree.nil CTree.nil) CTree.nil) 1 1 2
      [(2, Act.anoop), (1, Act.anoop)] h1 h2 h3⟩

/-! ## ReactCompositeComponent: initial mount under the error boundary

performInitialMount and performInitialMountWithErrorHandling, with the
unit behaviour (componentWillMount, render, the recursive child mount
and unstable_handleError) as explicit parameters. Errors are explicit
values; the distinguished typeErrorNullUnmount is the TypeError raised
by reading a property of null. The transaction is its callback queue,
modelled as the list of enqueued item tags with checkpoint as the
length and rollback as truncation. -/

/-- A thrown JS error: a user-level error value, or the TypeError raised
when the recovery path calls unmountComponent on a null rendered
child. -/
inductive JSError : Type where
  | userError (n : Nat) : JSError
  | typeErrorNullUnmount : JSError
deriving DecidableEq

/-- The internal instance fields that the initial-mount path reads and
writes. -/
structure CompState where
  instState : JVal
  props : Fields
  context : Fields
  pendingStateQueue : Option (List JVal)
  pendingReplaceState : Bool
  renderedComponent : Option Nat
  allocId : Nat
  handleErrorCalls : List JSError

/-- enqueueSetState pushes onto _pendingStateQueue, creating it when
null. -/
def appendPendingQueue (c : CompState) (xs : Option (List JVal)) : CompState :=
  match xs with
  | none => c
  | some l => { c with pendingStateQueue := some (c.pendingStateQueue.getD [] ++ l) }

/-- inst.state = this._processPendingState(inst.props, inst.context)
together with the queue and flag clearing that _processPendingState
performs; the freshly allocated result object takes the next identity. -/
def mergePendingState (c : CompState) : CompState :=
  let ns := processPendingState c.allocId c.instState c.pendingStateQueue
    c.pendingReplaceState c.props c.context
  { c with instState := ns, pendingStateQueue := none,
           pendingReplaceState := false, allocId := c.allocId + 1 }

/-- The behaviour of the unit being mounted: the optional
componentWillMount hook (the state entries it queues and whether it
throws), render as a function of the instance state, the recursive
child mount (transaction items it enqueues, then markup or an error),
and what unstable_handleError queues. Only units that declare
unstable_handleError take the error-handling path below. -/
structure UnitSpec where
  componentWillMount : Option (JVal → Option (List JVal) × Option JSError)
  render : JVal → Except JSError Nat
  childMount : Nat → List Nat × Except JSError Nat
  unstable_handleError : JSError → Option (List JVal)

/-- performInitialMount: run componentWillMount if present (merging any
state it queued, unless it threw), render to obtain the child
descriptor, store the instantiated child as _renderedComponent, then
recursively mount the child. On a throw the mutations made so far
persist and the error propagates. -/
def performInitialMount (u : UnitSpec) (c : CompState) (tr : List Nat) :
    CompState × List Nat × Except JSError Nat :=
  let step1 : CompState × Option JSError :=
    match u.componentWillMount with
    | none => (c, none)
    | some wm =>
      let eff := wm c.instState
      let c1 := appendPendingQueue c eff.1
      match eff.2 with
      | some e => (c1, some e)
      | none =>
        (if c1.pendingStateQueue.isSome then mergePendingState c1 else c1, none)
  match step1 with
  | (c1, some e) => (c1, tr, Except.error e)
  | (c1, none) =>
    match u.render c1.instState with
    | Except.error e => (c1, tr, Except.error e)
    | Except.ok elem =>
      let c2 := { c1 with renderedComponent := some elem }
      let cm := u.childMount elem
      let tr2 := tr ++ cm.1
      match cm.2 with
      | Except.error e => (c2, tr2, Except.error e)
      | Except.ok markup => (c2, tr2, Except.ok markup)

/-- performInitialMountWithErrorHandling: checkpoint, attempt the mount;
on failure roll back to the checkpoint, call unstable_handleError with
the caught error, re-merge any state it queued, take a fresh
checkpoint, call unmountComponent(true) on this._renderedComponent
(which is null when the failure happened before the child was stored:
reading a property of null raises a TypeError), roll back again, and
retry performInitialMount once, letting a second failure propagate. -/
def performInitialMountWithErrorHandling (u : UnitSpec) (c : CompState)
    (tr : List Nat) : CompState × List Nat × Except JSError Nat :=
  let checkpoint := tr.length
  let r1 := performInitialMount u c tr
  match r1.2.2 with
  | Except.ok m => (r1.1, r1.2.1, Except.ok m)
  | Except.error e =>
    let tr2 := r1.2.1.take checkpoint
    let c2 := { r1.1 with handleErrorCalls := r1.1.handleErrorCalls ++ [e] }
    let c3 := appendPendingQueue c2 (u.unstable_handleError e)
    let c4 := if c3.pendingStateQueue.isSome then mergePendingState c3 else c3
    let checkpoint2 := tr2.length
    match c4.renderedComponent with
    | none => (c4, tr2, Except.error JSError.typeErrorNullUnmount)
    | some _ =>
      let tr3 := tr2.take checkpoint2
      performInitialMount u c4 tr3

/-- The internal instance record as mountComponent leaves it right before
the initial-mount call: null state, no pending work, no rendered
child. -/
def mountInit : CompState :=
  { instState := JVal.jnull, props := [], context := [],
    pendingStateQueue := none, pendingReplaceState := false,
    renderedComponent := none, allocId := 0, handleErrorCalls := [] }

/-- A unit with the error-recovery hook whose render throws while the
recovered flag is absent from the state and succeeds once it is set;
the hook queues the recovered flag. -/
def renderThrowsOnceUnit : UnitSpec :=
  { componentWillMount := none
  , render := fun st =>
      match st with
      | JVal.obj _ fs =>
        if lookupF fs "recovered" == some 1 then Except.ok 11
        else Except.error (JSError.userError 7)
      | _ => Except.error (JSError.userError 7)
  , childMount := fun e => ([e], Except.ok e)
  , unstable_handleError := fun _ => some [JVal.obj 50 [("recovered", 1)]] }

/-- Claim C2 (code bug): mounting a unit with the error-recovery hook
whose render throws on the first attempt does not end mounted with the
second render output: the recovery path dereferences the absent
rendered child and raises a TypeError before the retry, even though
the hook was invoked exactly once with the caught error and the state
it queued was re-merged, so the retry, had it run, would have
succeeded with the second render output. -/
theorem mount_error_recovery_render_throw_bug :
    (performInitialMountWithErrorHandling renderThrowsOnceUnit mountInit []).2.2
      = Except.error JSError.typeErrorNullUnmount
    ∧ (performInitialMountWithErrorHandling renderThrowsOnceUnit mountInit []).1.handleErrorCalls
      = [JSError.userError 7]
    ∧ (performInitialMount renderThrowsOnceUnit
        (performInitialMountWithErrorHandling renderThrowsOnceUnit mountInit []).1 []).2.2
      = Except.ok 11 := by
  refine ⟨rfl, rfl, rfl⟩

/-- A unit with the error-recovery hook whose componentWillMount throws,
so the first attempt fails before render and before any child instance
was stored. -/
def willMountThrowsUnit : UnitSpec :=
  { componentWillMount := some (fun _ => (none, some (JSError.userError 3)))
  , render := fun _ => Except.ok 21
  , childMount := fun e => ([], Except.ok e)
  , unstable_handleError := fun _ => none }

/-- Claim C10 (code bug): when the first mount attempt of an
error-recovery unit fails before any child instance was instantiated
and stored as the rendered child, the forced child unmount of the
recovery path is not well-defined: it dereferences the absent child
and the recovery path raises a TypeError of its own. -/
theorem mount_error_recovery_null_child_deref :
    (performInitialMountWithErrorHandling willMountThrowsUnit mountInit []).2.2
      = Except.error JSError.typeErrorNullUnmount
    ∧ (performInitialMountWithErrorHandling willMountThrowsUnit mountInit []).1.handleErrorCalls
      = [JSError.userError 3]
    ∧ (performInitialMountWithErrorHandling willMountThrowsUnit mountInit []).1.renderedComponent
      = none := by
  refine ⟨rfl, rfl, rfl⟩

/-! ## ReactCompositeComponent.unmountComponent -/

/-- Observable events of unmountComponent: the componentWillUnmount hook
invoked (guarded through invokeGuardedCallback or directly), and the
recursive unmount of the rendered child with the propagated safely
flag. -/
inductive UEvent : Type where
  | hookInvoked (guarded : Bool) : UEvent
  | childUnmounted (safely : Bool) : UEvent
deriving DecidableEq

/-- The instance fields unmountComponent reads and writes. The
componentWillUnmount field is the optional hook together with the error
it throws when run (none for a normal return). -/
structure UInst where
  renderedComponent : Option Nat
  calledComponentWillUnmount : Bool
  componentWillUnmount : Option (Option JSError)
  pendingStateQueue : Option (List JVal)
  pendingReplaceState : Bool
  pendingForceUpdate : Bool

/-- unmountComponent(safely): return immediately when there is no
rendered child (already unmounted); otherwise, if the hook exists and
has not fired yet, set the called flag and invoke the hook, guarded
when safely (the guarded call captures and defers a thrown error) and
directly otherwise (a thrown error propagates at once, aborting the
rest of the unmount); then recursively unmount the rendered child with
the same safely flag and clear the instance fields. Returns the new
instance, the event list, and the propagated error if any. -/
def unmountComponent (c : UInst) (safely : Bool) :
    UInst × List UEvent × Option JSError :=
  match c.renderedComponent with
  | none => (c, [], none)
  | some _ =>
    let hookStep : UInst × List UEvent × Option JSError :=
      match c.componentWillUnmount, c.calledComponentWillUnmount with
      | some thr, false =>
        let c1 := { c with calledComponentWillUnmount := true }
        if safely then
          (c1, [UEvent.hookInvoked true], none)
        else
          (c1, [UEvent.hookInvoked false], thr)
      | _, _ => (c, [], none)
    match hookStep with
    | (c1, evs, some e) => (c1, evs, some e)
    | (c1, evs, none) =>
      ({ c1 with renderedComponent := none, pendingStateQueue := none,
                 pendingReplaceState := false, pendingForceUpdate := false },
        evs ++ [UEvent.childUnmounted safely], none)

/-- A sequence of unmountComponent calls on the same instance, collecting
all events. -/
def unmountSeq (c : UInst) : List Bool → UInst × List UEvent
  | [] => (c, [])
  | s :: rest =>
    let r1 := unmountComponent c s
    let r2 := unmountSeq r1.1 rest
    (r2.1, r1.2.1 ++ r2.2)

/-- Number of hook invocations in an event list. -/
def hookCount (evs : List UEvent) : Nat :=
  (evs.filter (fun e =>
    match e with
    | UEvent.hookInvoked _ => true
    | _ => false)).length

theorem hookCount_append (a b : List UEvent) :
    hookCount (a ++ b) = hookCount a + hookCount b := by
  simp [hookCount, List.filter_append]

/-- Once the called flag is set, a further unmountComponent call never
fires the hook again and keeps the flag set. -/
theorem unmountComponent_called_flag (c : UInst) (s : Bool)
    (h : c.calledComponentWillUnmount = true) :
    hookCount (unmountComponent c s).2.1 = 0
    ∧ (unmountComponent c s).1.calledComponentWillUnmount = true := by
  cases hr : c.renderedComponent with
  | none => simp [unmountComponent, hr, hookCount, h]
  | some child =>
    cases hw : c.componentWillUnmount with
    | none => simp [unmountComponent, hr, hw, hookCount, h]
    | some thr => simp [unmountComponent, hr, hw, h, hookCount]

/-- With the called flag already set, a whole sequence of unmount calls
fires the hook zero times. -/
theorem unmountSeq_hook_zero_of_called :
    ∀ (calls : List Bool) (c : UInst),
      c.calledComponentWillUnmount = true →
      hookCount (unmountSeq c calls).2 = 0 := by
  intro calls
  induction calls with
  | nil =>
    intro c h
    simp [unmountSeq, hookCount]
  | cons s rest ih =>
    intro c h
    obtain ⟨h1, h2⟩ := unmountComponent_called_flag c s h
    simp only [unmountSeq, hookCount_append, h1, ih _ h2]

/-- A single unmountComponent call fires the hook at most once, and if it
fires, the called flag is set afterwards. -/
theorem unmountComponent_hook_le_one (c : UInst) (s : Bool) :
    hookCount (unmountComponent c s).2.1 ≤ 1
    ∧ (hookCount (unmountComponent c s).2.1 = 0
        ∨ (unmountComponent c s).1.calledComponentWillUnmount = true) := by
  cases hr : c.renderedComponent with
  | none => simp [unmountComponent, hr, hookCount]
  | some child =>
    cases hw : c.componentWillUnmount with
    | none => simp [unmountComponent, hr, hw, hookCount]
    | some thr =>
      cases hcf : c.calledComponentWillUnmount with
      | true => simp [unmountComponent, hr, hw, hcf, hookCount]
      | false =>
        cases s with
        | true => simp [unmountComponent, hr, hw, hcf, hookCount]
        | false =>
          cases thr with
          | none => simp [unmountComponent, hr, hw, hcf, hookCount]
          | some e => simp [unmountComponent, hr, hw, hcf, hookCount]

/-- Across any sequence of unmountComponent calls on one instance, the
componentWillUnmount hook fires at most once. -/
theorem unmountSeq_hook_at_most_once :
    ∀ (calls : List Bool) (c : UInst),
      hookCount (unmountSeq c calls).2 ≤ 1 := by
  intro calls
  induction calls with
  | nil =>
    intro c
    simp [unmountSeq, hookCount]
  | cons s rest ih =>
    intro c
    obtain ⟨hle, hz⟩ := unmountComponent_hook_le_one c s
    simp only [unmountSeq, hookCount_append]
    rcases hz with hz | hcalled
    · have := ih (unmountComponent c s).1
      omega
    · have := unmountSeq_hook_zero_of_called rest (unmountComponent c s).1 hcalled
      omega

/-- Claim C9: for an instance whose unit defines componentWillUnmount and
whose hook has not fired yet, unmounting with safely = true invokes the
hook through the guarded call (a thrown error is captured, not
propagated) and then recursively unmounts the rendered child with the
same flag; unmounting with safely = false invokes the hook directly so
its error propagates immediately (skipping the child unmount), and when
the hook returns normally the child is unmounted with safely = false;
and across any sequence of unmount calls the hook fires at most once. -/
theorem unmountComponent_hook_discipline
    (c : UInst) (thr : Option JSError) (child : Nat)
    (hHook : c.componentWillUnmount = some thr)
    (hNotCalled : c.calledComponentWillUnmount = false)
    (hChild : c.renderedComponent = some child) :
    ((unmountComponent c true).2.1
        = [UEvent.hookInvoked true, UEvent.childUnmounted true]
      ∧ (unmountComponent c true).2.2 = none)
    ∧ ((unmountComponent c false).2.2 = thr
      ∧ (thr = none →
          (unmountComponent c false).2.1
            = [UEvent.hookInvoked false, UEvent.childUnmounted false])
      ∧ (∀ e, thr = some e →
          (unmountComponent c false).2.1 = [UEvent.hookInvoked false]))
    ∧ (∀ calls : List Bool, hookCount (unmountSeq c calls).2 ≤ 1) := by
  refine ⟨⟨?_, ?_⟩, ⟨?_, ?_, ?_⟩, fun calls => unmountSeq_hook_at_most_once calls c⟩
  · simp [unmountComponent, hHook, hNotCalled, hChild]
  · simp [unmountComponent, hHook, hNotCalled, hChild]
  · cases thr with
    | none => simp [unmountComponent, hHook, hNotCalled, hChild]
    | some e => simp [unmountComponent, hHook, hNotCalled, hChild]
  · intro ht
    subst ht
    simp [unmountComponent, hHook, hNotCalled, hChild]
  · intro e ht
    subst ht
    simp [unmountComponent, hHook, hNotCalled, hChild]

/-- A concrete instance with a throwing componentWillUnmount hook and a
rendered child. -/
def unmountInstEx : UInst :=
  { renderedComponent := some 3, calledComponentWillUnmount := false,
    componentWillUnmount := some (some (JSError.userError 1)),
    pendingStateQueue := none, pendingReplaceState := false,
    pendingForceUpdate := false }

/-- Claim C9 witness: the theorem applied to the concrete instance with a
throwing hook, at thr = some (userError 1). -/
theorem unmountComponent_hook_discipline_witness :
    unmountInstEx.componentWillUnmount = some (some (JSError.userError 1))
    ∧ ((unmountComponent unmountInstEx true).2.1
        = [UEvent.hookInvoked true, UEvent.childUnmounted true]
      ∧ (unmountComponent unmountInstEx true).2.2 = none) := by
  constructor
  · rfl
  · exact (unmountComponent_hook_discipline unmountInstEx
      (some (JSError.userError 1)) 3 rfl rfl rfl).1

/-! ## CallbackQueue

The buffer (the parallel _callbacks and _contexts arrays) carries an
explicit identity so that buffer reuse versus fresh allocation is
observable, as required to settle the re-entrant enqueue claim. -/

/-- What a queued callback does when invoked: nothing, a re-entrant
enqueue of a further labelled callback with a context, or two actions
in sequence. -/
inductive CQCb : Type where
  | cnoop : CQCb
  | cenq (label : Nat) (cb : CQCb) (ctx : Nat) : CQCb
  | cthen (a b : CQCb) : CQCb
deriving DecidableEq

/-- A queued (callback, context) pair with an identifying label. -/
structure CQItem where
  label : Nat
  cb : CQCb
  ctx : Nat
deriving DecidableEq

/-- CallbackQueue state: a fresh-identity allocator, the nullable buffer
(identity plus items), and the shared extra argument _arg. -/
structure CQState where
  nextId : Nat
  buf : Option (Nat × List CQItem)
  arg : Nat
deriving DecidableEq

/-- enqueue(callback, context): when the fields are null a fresh array is
allocated (this._callbacks = this._callbacks or a new array), then the
pair is pushed. -/
def cqEnqueue (s : CQState) (it : CQItem) : CQState :=
  match s.buf with
  | none => { s with buf := some (s.nextId, [it]), nextId := s.nextId + 1 }
  | some (i, xs) => { s with buf := some (i, xs ++ [it]) }

/-- Invoke one callback: its re-entrant enqueues hit the queue state. -/
def runCQCb : CQCb → CQState → CQState
  | .cnoop, s => s
  | .cenq l cb ctx, s => cqEnqueue s { label := l, cb := cb, ctx := ctx }
  | .cthen a b, s => runCQCb b (runCQCb a s)

/-- The drain loop of notifyAll over the captured snapshot: invoke each
pair in insertion order with the shared argument, recording
(label, context, argument) per invocation. -/
def notifyLoop : List CQItem → CQState → Nat → CQState × List (Nat × Nat × Nat)
  | [], s, _ => (s, [])
  | it :: rest, s, arg =>
    let s1 := runCQCb it.cb s
    let r := notifyLoop rest s1 arg
    (r.1, (it.label, it.ctx, arg) :: r.2)

/-- notifyAll(): a no-op when the buffer is null; otherwise capture the
buffer locally, null the queue fields BEFORE the loop, and drain the
captured snapshot. The snapshot arrays are truncated after the loop but
are no longer referenced by the queue. -/
def notifyAll (s : CQState) : CQState × List (Nat × Nat × Nat) :=
  match s.buf with
  | none => (s, [])
  | some (_, items) => notifyLoop items { s with buf := none } s.arg

/-- The re-entrant enqueues one callback performs, in order. -/
def cbEnqs : CQCb → List CQItem
  | .cnoop => []
  | .cenq l cb ctx => [{ label := l, cb := cb, ctx := ctx }]
  | .cthen a b => cbEnqs a ++ cbEnqs b

/-- The re-entrant enqueues a snapshot of callbacks performs when each is
invoked once, in order. -/
def itemsEnqs : List CQItem → List CQItem
  | [] => []
  | it :: rest => cbEnqs it.cb ++ itemsEnqs rest

theorem runCQCb_some (cb : CQCb) :
    ∀ (s : CQState) (i : Nat) (xs : List CQItem), s.buf = some (i, xs) →
      runCQCb cb s = { s with buf := some (i, xs ++ cbEnqs cb) } := by
  induction cb with
  | cnoop =>
    intro s i xs h
    cases s
    simp_all [runCQCb, cbEnqs]
  | cenq l cb ctx =>
    intro s i xs h
    simp [runCQCb, cqEnqueue, h, cbEnqs]
  | cthen a b iha ihb =>
    intro s i xs h
    have h1 := iha s i xs h
    simp only [runCQCb, h1]
    have h2 := ihb { s with buf := some (i, xs ++ cbEnqs a) } i (xs ++ cbEnqs a) rfl
    simp [h2, cbEnqs, List.append_assoc]

theorem runCQCb_none (cb : CQCb) :
    ∀ s : CQState, s.buf = none →
      (cbEnqs cb = [] → runCQCb cb s = s)
      ∧ (cbEnqs cb ≠ [] →
          runCQCb cb s
            = { s with buf := some (s.nextId, cbEnqs cb),
                       nextId := s.nextId + 1 }) := by
  induction cb with
  | cnoop =>
    intro s h
    simp [runCQCb, cbEnqs]
  | cenq l cb ctx =>
    intro s h
    simp [runCQCb, cqEnqueue, h, cbEnqs]
  | cthen a b iha ihb =>
    intro s h
    constructor
    · intro hab
      simp only [cbEnqs, List.append_eq_nil] at hab
      simp only [runCQCb, (iha s h).1 hab.1, (ihb s h).1 hab.2]
    · intro hab
      by_cases ha : cbEnqs a = []
      · have hb : cbEnqs b ≠ [] := by
          simp only [cbEnqs, ha, List.nil_append] at hab
          exact hab
        simp only [runCQCb, (iha s h).1 ha]
        have := (ihb s h).2 hb
        simp [this, cbEnqs, ha]
      · have h1 := (iha s h).2 ha
        simp only [runCQCb, h1]
        have h2 := runCQCb_some b
          { s with buf := some (s.nextId, cbEnqs a), nextId := s.nextId + 1 }
          s.nextId (cbEnqs a) rfl
        simp [h2, cbEnqs]

theorem notifyLoop_trace (items : List CQItem) :
    ∀ (s : CQState) (arg : Nat),
      (notifyLoop items s arg).2
        = items.map (fun it => (it.label, it.ctx, arg)) := by
  induction items with
  | nil => intro s arg; simp [notifyLoop]
  | cons it rest ih =>
    intro s arg
    simp [notifyLoop, ih]

theorem notifyLoop_some (items : List CQItem) :
    ∀ (s : CQState) (i : Nat) (xs : List CQItem) (arg : Nat),
      s.buf = some (i, xs) →
      (notifyLoop items s arg).1
        = { s with buf := some (i, xs ++ itemsEnqs items) } := by
  induction items with
  | nil =>
    intro s i xs arg h
    cases s
    simp_all [notifyLoop, itemsEnqs]
  | cons it rest ih =>
    intro s i xs arg h
    have h1 := runCQCb_some it.cb s i xs h
    simp only [notifyLoop, h1]
    have h2 := ih { s with buf := some (i, xs ++ cbEnqs it.cb) } i
      (xs ++ cbEnqs it.cb) arg rfl
    simp [h2, itemsEnqs, List.append_assoc]

theorem notifyLoop_none (items : List CQItem) :
    ∀ (s : CQState) (arg : Nat), s.buf = none →
      (notifyLoop items s arg).1
        = (if itemsEnqs items = [] then s
           else { s with buf := some (s.nextId, itemsEnqs items),
                         nextId := s.nextId + 1 }) := by
  induction items with
  | nil =>
    intro s arg h
    simp [notifyLoop, itemsEnqs]
  | cons it rest ih =>
    intro s arg h
    by_cases hc : cbEnqs it.cb = []
    · have h1 := (runCQCb_none it.cb s h).1 hc
      simp only [notifyLoop, h1]
      have h2 := ih s arg h
      simp [h2, itemsEnqs, hc]
    · have h1 := (runCQCb_none it.cb s h).2 hc
      simp only [notifyLoop, h1]
      have h2 := notifyLoop_some rest
        { s with buf := some (s.nextId, cbEnqs it.cb), nextId := s.nextId + 1 }
        s.nextId (cbEnqs it.cb) arg rfl
      simp [h2, itemsEnqs, hc]

/-- The initially queued pair of the concrete queue below: callback 7
re-entrantly enqueues callback 9 with context 4; its own context is 5. -/
def cqItemEx : CQItem :=
  { label := 7, cb := CQCb.cenq 9 CQCb.cnoop 4, ctx := 5 }

/-- A concrete queue: buffer identity 0 holding the one pair above,
shared argument 42, next fresh identity 1. -/
def cqEx : CQState :=
  { nextId := 1, buf := some (0, [cqItemEx]), arg := 42 }

/-- Claim C6 counterexample: after notifyAll on the concrete queue, the
re-entrantly enqueued pair sits in a buffer with the fresh identity 1,
not in the original buffer with identity 0 (the queue fields are nulled
before the drain loop, so the re-entrant enqueue allocated a fresh
buffer): the claim that re-entrant enqueues are appended to the same
underlying buffer is false at this input, even though the pair does
remain queued and was not visited by the current notifyAll call. -/
theorem notifyAll_fresh_buffer_counterexample :
    (notifyAll cqEx).1.buf = some (1, [{ label := 9, cb := CQCb.cnoop, ctx := 4 }])
    ∧ ((notifyAll cqEx).1.buf.map Prod.fst ≠ some 0)
    ∧ (notifyAll cqEx).2 = [(7, 5, 42)] := by
  decide

/-- Claim C6 amended: notifyAll invokes every previously queued
(callback, context) pair in insertion order with the single shared
argument; notifyAll on an empty queue is a no-op; enqueue calls made
re-entrantly from within a callback during notifyAll are not visited by
the current notifyAll call and remain queued for the next drain, but
they are appended to a freshly allocated buffer (the queue fields are
nulled before the drain loop), not to the same underlying buffer. -/
theorem notifyAll_contract (s : CQState)
    (hwf : ∀ i items, s.buf = some (i, items) → i < s.nextId) :
    (s.buf = none → notifyAll s = (s, []))
    ∧ (∀ i items, s.buf = some (i, items) →
        (notifyAll s).2 = items.map (fun it => (it.label, it.ctx, s.arg))
        ∧ (notifyAll s).1.buf
            = (if itemsEnqs items = [] then none
               else some (s.nextId, itemsEnqs items))
        ∧ (∀ j its2, (notifyAll s).1.buf = some (j, its2) →
            i < j ∧ its2 = itemsEnqs items)) := by
  constructor
  · intro h
    simp [notifyAll, h]
  · intro i items h
    have htr : (notifyAll s).2 = items.map (fun it => (it.label, it.ctx, s.arg)) := by
      simp only [notifyAll, h]
      exact notifyLoop_trace items { s with buf := none } s.arg
    have hst : (notifyAll s).1
        = (if itemsEnqs items = [] then { s with buf := none }
           else { s with buf := some (s.nextId, itemsEnqs items),
                         nextId := s.nextId + 1 }) := by
      simp only [notifyAll, h]
      have := notifyLoop_none items { s with buf := none } s.arg rfl
      simpa using this
    refine ⟨htr, ?_, ?_⟩
    · rw [hst]
      by_cases he : itemsEnqs items = []
      · simp [he]
      · simp [he]
    · intro j its2 hj
      rw [hst] at hj
      by_cases he : itemsEnqs items = []
      · simp [he] at hj
      · simp only [he, if_false] at hj
        have hlt := hwf i items h
        simp at hj
        obtain ⟨hj1, hj2⟩ := hj
        constructor
        · omega
        · exact hj2.symm

/-- Claim C6 witness: the amended contract applied to the concrete
re-entrantly enqueuing queue of the counterexample. -/
theorem notifyAll_contract_witness :
    (notifyAll cqEx).2 = [cqItemEx].map (fun it => (it.label, it.ctx, cqEx.arg))
    ∧ (notifyAll cqEx).1.buf
      = (if itemsEnqs [cqItemEx] = [] then none
         else some (cqEx.nextId, itemsEnqs [cqItemEx])) := by
  have hwf : ∀ i items, cqEx.buf = some (i, items) → i < cqEx.nextId := by
    intro i items h
    simp [cqEx] at h ⊢
    omega
  have h := (notifyAll_contract cqEx hwf).2 0 [cqItemEx] rfl
  exact ⟨h.1, h.2.1⟩

/-! ## Claim C5 support: characterizing the flush segments -/

theorem isEmptyAppendNA (l1 l2 : List (Nat × Act)) :
    (l1 ++ l2).isEmpty = (l1.isEmpty && l2.isEmpty) := by
  cases l1 <;> simp

/-- Running an effect appends its dirty registrations, appends its asap
registrations, raises the pending flag iff it registered any asap
callback, and emits exactly its registration events. -/
theorem runAct_eq : ∀ (a : Act) (s : SState),
    runAct a s
      = ({ dirtyComponents := s.dirtyComponents ++ dirtyCalls a,
           asapQueue := s.asapQueue ++ asapCalls a,
           asapEnqueued := s.asapEnqueued || !(asapCalls a).isEmpty },
         schedTrace a) := by
  intro a
  induction a with
  | anoop =>
    intro s
    simp [runAct, dirtyCalls, asapCalls, schedTrace]
  | aseq a b iha ihb =>
    intro s
    simp only [runAct, iha, ihb]
    simp [dirtyCalls, asapCalls, schedTrace, isEmptyAppendNA, Bool.not_and,
      Bool.or_assoc, List.append_assoc]
  | callAsap l c =>
    intro s
    simp [runAct, dirtyCalls, asapCalls, schedTrace]
  | enqDirty l c =>
    intro s
    simp [runAct, dirtyCalls, asapCalls, schedTrace]

/-- Asap registrations performed while processing a list of items. -/
def itemsAsap : List (Nat × Act) → List (Nat × Act)
  | [] => []
  | p :: rest => asapCalls p.2 ++ itemsAsap rest

/-- Dirty registrations performed while processing a list of items. -/
def itemsDirty : List (Nat × Act) → List (Nat × Act)
  | [] => []
  | p :: rest => dirtyCalls p.2 ++ itemsDirty rest

/-- The events emitted by one runBatchedUpdates window. -/
def windowTrace : List (Nat × Act) → List Ev
  | [] => []
  | p :: rest => (Ev.procDirty p.1 :: schedTrace p.2) ++ windowTrace rest

/-- The events emitted by draining one captured asap queue. -/
def drainTrace : List (Nat × Act) → List Ev
  | [] => []
  | p :: rest => (Ev.runAsap p.1 :: schedTrace p.2) ++ drainTrace rest

theorem processWindow_eq : ∀ (items : List (Nat × Act)) (s : SState),
    processWindow items s
      = ({ dirtyComponents := s.dirtyComponents ++ itemsDirty items,
           asapQueue := s.asapQueue ++ itemsAsap items,
           asapEnqueued := s.asapEnqueued || !(itemsAsap items).isEmpty },
         windowTrace items) := by
  intro items
  induction items with
  | nil =>
    intro s
    simp [processWindow, itemsDirty, itemsAsap, windowTrace]
  | cons p rest ih =>
    intro s
    obtain ⟨l, a⟩ := p
    simp only [processWindow, runAct_eq, ih]
    simp [itemsDirty, itemsAsap, windowTrace, isEmptyAppendNA, Bool.not_and,
      Bool.or_assoc, List.append_assoc]

theorem drainAsap_eq : ∀ (q : List (Nat × Act)) (s : SState),
    drainAsap q s
      = ({ dirtyComponents := s.dirtyComponents ++ itemsDirty q,
           asapQueue := s.asapQueue ++ itemsAsap q,
           asapEnqueued := s.asapEnqueued || !(itemsAsap q).isEmpty },
         drainTrace q) := by
  intro q
  induction q with
  | nil =>
    intro s
    simp [drainAsap, itemsDirty, itemsAsap, drainTrace]
  | cons p rest ih =>
    intro s
    obtain ⟨l, a⟩ := p
    simp only [drainAsap, runAct_eq, ih]
    simp [itemsDirty, itemsAsap, drainTrace, isEmptyAppendNA, Bool.not_and,
      Bool.or_assoc, List.append_assoc]

/-- Occurrences of a label among the items of a queue. -/
def cntL (l : Nat) (q : List (Nat × Act)) : Nat := (q.map Prod.fst).count l

/-- Occurrences of an event in a trace. -/
def cntE (e : Ev) (tr : List Ev) : Nat := tr.count e

theorem cntE_append (e : Ev) (t1 t2 : List Ev) :
    cntE e (t1 ++ t2) = cntE e t1 + cntE e t2 := by
  simp [cntE, List.count_append]

theorem cntL_append (l : Nat) (q1 q2 : List (Nat × Act)) :
    cntL l (q1 ++ q2) = cntL l q1 + cntL l q2 := by
  simp [cntL, List.count_append]

theorem schedTrace_cnt_runAsap (m : Nat) :
    ∀ a : Act, cntE (Ev.runAsap m) (schedTrace a) = 0 := by
  intro a
  induction a <;>
    simp_all [schedTrace, cntE, List.count_append, List.count_cons, beq_iff_eq]

theorem schedTrace_cnt_schedAsap (m : Nat) :
    ∀ a : Act, cntE (Ev.schedAsap m) (schedTrace a) = cntL m (asapCalls a) := by
  intro a
  induction a <;>
    simp_all [schedTrace, asapCalls, cntE, cntL, List.count_append,
      List.count_cons, beq_iff_eq, List.map_append]

theorem windowTrace_cnt_runAsap (m : Nat) :
    ∀ items : List (Nat × Act), cntE (Ev.runAsap m) (windowTrace items) = 0 := by
  intro items
  induction items with
  | nil => simp [windowTrace, cntE]
  | cons p rest ih =>
    have h1 := schedTrace_cnt_runAsap m p.2
    simp_all [windowTrace, cntE, List.count_append, List.count_cons, beq_iff_eq]

theorem windowTrace_cnt_schedAsap (m : Nat) :
    ∀ items : List (Nat × Act),
      cntE (Ev.schedAsap m) (windowTrace items) = cntL m (itemsAsap items) := by
  intro items
  induction items with
  | nil => simp [windowTrace, itemsAsap, cntE, cntL]
  | cons p rest ih =>
    have h1 := schedTrace_cnt_schedAsap m p.2
    simp_all [windowTrace, itemsAsap, cntE, cntL, List.count_append,
      List.count_cons, beq_iff_eq, List.map_append]

theorem drainTrace_cnt_runAsap (m : Nat) :
    ∀ q : List (Nat × Act), cntE (Ev.runAsap m) (drainTrace q) = cntL m q := by
  intro q
  induction q with
  | nil => simp [drainTrace, cntE, cntL]
  | cons p rest ih =>
    have h1 := schedTrace_cnt_runAsap m p.2
    simp_all [drainTrace, cntE, cntL, List.count_append, List.count_cons,
      beq_iff_eq]

theorem drainTrace_cnt_schedAsap (m : Nat) :
    ∀ q : List (Nat × Act),
      cntE (Ev.schedAsap m) (drainTrace q) = cntL m (itemsAsap q) := by
  intro q
  induction q with
  | nil => simp [drainTrace, itemsAsap, cntE, cntL]
  | cons p rest ih =>
    have h1 := schedTrace_cnt_schedAsap m p.2
    simp_all [drainTrace, itemsAsap, cntE, cntL, List.count_append,
      List.count_cons, beq_iff_eq, List.map_append]

/-- The flush contract: at completion no dirty component, no pending
asap flag and no queued asap callback remain; for every label, the
runAsap occurrences in the trace equal the initially queued callbacks
with that label plus the schedAsap registrations in the trace; and when
dirty components were pending at entry the trace begins with a
dirty-component processing event. -/
def FlushSpec (s : SState) (res : SState × List Ev) : Prop :=
  res.1.dirtyComponents = [] ∧ res.1.asapEnqueued = false
  ∧ res.1.asapQueue = []
  ∧ (∀ l, cntE (Ev.runAsap l) res.2
      = cntL l s.asapQueue + cntE (Ev.schedAsap l) res.2)
  ∧ (s.dirtyComponents ≠ [] → ∃ l r, res.2 = Ev.procDirty l :: r)

theorem flushStepB (fuel : Nat)
    (ih : ∀ (s : SState) (res : SState × List Ev),
      (s.asapEnqueued = false → s.asapQueue = []) →
      flushBatchedUpdates fuel s = some res → FlushSpec s res)
    (s1 s2 : SState) (tr2 : List Ev)
    (hwf1 : s1.asapEnqueued = false → s1.asapQueue = [])
    (heq2 : flushBatchedUpdates fuel
        (if s1.asapEnqueued = true then
            drainAsap s1.asapQueue
              { dirtyComponents := s1.dirtyComponents, asapQueue := [],
                asapEnqueued := false }
          else (s1, [])).1
      = some (s2, tr2)) :
    s2.dirtyComponents = [] ∧ s2.asapEnqueued = false ∧ s2.asapQueue = []
    ∧ ∀ l, cntE (Ev.runAsap l)
        ((if s1.asapEnqueued = true then
            drainAsap s1.asapQueue
              { dirtyComponents := s1.dirtyComponents, asapQueue := [],
                asapEnqueued := false }
          else (s1, [])).2 ++ tr2)
      = cntL l s1.asapQueue
        + cntE (Ev.schedAsap l)
          ((if s1.asapEnqueued = true then
              drainAsap s1.asapQueue
                { dirtyComponents := s1.dirtyComponents, asapQueue := [],
                  asapEnqueued := false }
            else (s1, [])).2 ++ tr2) := by
  by_cases hb : s1.asapEnqueued = true
  · rw [if_pos hb] at heq2 ⊢
    rw [drainAsap_eq] at heq2 ⊢
    simp only [List.nil_append, Bool.false_or] at heq2 ⊢
    have hIH := ih _ (s2, tr2) (by
      intro hf
      have hf2 : (!(itemsAsap s1.asapQueue).isEmpty) = false := hf
      show itemsAsap s1.asapQueue = []
      cases hq2 : itemsAsap s1.asapQueue with
      | nil => rfl
      | cons x xs => simp [hq2] at hf2) heq2
    obtain ⟨h2d, h2f, h2q, h2c, -⟩ := hIH
    refine ⟨h2d, h2f, h2q, ?_⟩
    intro l
    have e2 := h2c l
    dsimp only at e2
    simp only [cntE_append, drainTrace_cnt_runAsap, drainTrace_cnt_schedAsap]
    omega
  · rw [if_neg hb] at heq2 ⊢
    dsimp only at heq2 ⊢
    have hIH := ih s1 (s2, tr2) hwf1 heq2
    obtain ⟨h2d, h2f, h2q, h2c, -⟩ := hIH
    refine ⟨h2d, h2f, h2q, ?_⟩
    intro l
    simp only [List.nil_append]
    exact h2c l

/-- Claim C5: every callback passed to asap is invoked exactly once by
the flush loop. When flushBatchedUpdates completes, no dirty component,
no pending asap flag and no queued asap callback remain; for every
label, the number of runAsap invocations in the trace equals the number
of initially queued callbacks with that label plus the number
registered by asap during the flush (none lost, none run twice:
callbacks that register further asap work during a drain land in the
freshly swapped-in queue, the flag having been cleared before the
drain, and are invoked by a later iteration of the same flush loop);
and when dirty components are pending at entry, the trace starts with
dirty-instance processing, so the asap queue is drained only after the
current dirty-instance processing. The hypothesis is the scheduler
well-formedness invariant that the pending flag is only clear when the
queue is empty, which asap preserves by setting both together. -/
theorem flushBatchedUpdates_asap_exactly_once :
    ∀ (fuel : Nat) (s : SState) (res : SState × List Ev),
      (s.asapEnqueued = false → s.asapQueue = []) →
      flushBatchedUpdates fuel s = some res →
      FlushSpec s res := by
  intro fuel
  induction fuel with
  | zero =>
    intro s res hwf h
    simp [flushBatchedUpdates] at h
  | succ fuel ih =>
    intro s res hwf h
    simp only [flushBatchedUpdates] at h
    by_cases hdone : (s.dirtyComponents.isEmpty && !s.asapEnqueued) = true
    · rw [if_pos hdone] at h
      have hres := Option.some.inj h
      subst hres
      rw [Bool.and_eq_true] at hdone
      obtain ⟨hde, hfe⟩ := hdone
      rw [Bool.not_eq_true'] at hfe
      rw [List.isEmpty_iff] at hde
      have hq := hwf hfe
      refine ⟨hde, hfe, hq, ?_, ?_⟩
      · intro l
        simp [cntE, cntL, hq]
      · intro hne
        exact absurd hde hne
    · rw [if_neg hdone] at h
      split at h
      · simp at h
      next s1 tr1 heqA =>
        split at h
        · simp at h
        next s2 tr2 heq2 =>
          have hres := Option.some.inj h
          subst hres
          unfold FlushSpec
          dsimp only
          split at heqA
          next hempty =>
            have hp := Option.some.inj heqA
            rw [Prod.ext_iff] at hp
            obtain ⟨hs1, htr1⟩ := hp
            subst hs1
            subst htr1
            have hde : s.dirtyComponents = [] := List.isEmpty_iff.mp hempty
            obtain ⟨h2d, h2f, h2q, hc⟩ := flushStepB fuel ih s s2 tr2 hwf heq2
            refine ⟨h2d, h2f, h2q, ?_, ?_⟩
            · intro l
              have e := hc l
              simp only [cntE_append] at e
              simp only [cntE_append, List.nil_append]
              omega
            · intro hne
              exact absurd hde hne
          next hnotempty =>
            have hdne : s.dirtyComponents ≠ [] := by
              intro hx
              rw [hx] at hnotempty
              simp at hnotempty
            have hslen : (sortDirty s.dirtyComponents).length
                = s.dirtyComponents.length := List.length_insertionSort _ _
            have hsne : sortDirty s.dirtyComponents ≠ [] := by
              intro hx
              rw [hx] at hslen
              exact hdne (List.length_eq_zero.mp hslen.symm)
            obtain ⟨p, ps, hps⟩ := List.exists_cons_of_ne_nil hsne
            simp only [processWindow_eq] at heqA
            split at heqA
            next hgrow =>
              split at heqA
              · simp at heqA
              next sC trC heqC =>
                have hp2 := Option.some.inj heqA
                rw [Prod.ext_iff] at hp2
                obtain ⟨hs1, htr1⟩ := hp2
                subst hs1
                subst htr1
                rw [show List.drop s.dirtyComponents.length
                      (sortDirty s.dirtyComponents
                        ++ itemsDirty (sortDirty s.dirtyComponents))
                    = itemsDirty (sortDirty s.dirtyComponents) from by
                  rw [← hslen, List.drop_left]] at heqC
                have hIHC := ih _ (sC, trC) (by
                  intro hf
                  have hf2 : (s.asapEnqueued
                      || !(itemsAsap (sortDirty s.dirtyComponents)).isEmpty) = false := hf
                  show s.asapQueue ++ itemsAsap (sortDirty s.dirtyComponents) = []
                  rw [Bool.or_eq_false_iff] at hf2
                  obtain ⟨hf3, hf4⟩ := hf2
                  rw [hwf hf3]
                  cases hq2 : itemsAsap (sortDirty s.dirtyComponents) with
                  | nil => rfl
                  | cons x xs => simp [hq2] at hf4) heqC
                obtain ⟨hCd, hCf, hCq, hCc, -⟩ := hIHC
                obtain ⟨h2d, h2f, h2q, hc⟩ :=
                  flushStepB fuel ih sC s2 tr2 (fun _ => hCq) heq2
                refine ⟨h2d, h2f, h2q, ?_, ?_⟩
                · intro l
                  have e1 := hCc l
                  dsimp only at e1
                  rw [cntL_append] at e1
                  have e2 := hc l
                  simp only [cntE_append] at e2
                  have hq0 : cntL l sC.asapQueue = 0 := by
                    rw [hCq]
                    rfl
                  have w1 := windowTrace_cnt_runAsap l (sortDirty s.dirtyComponents)
                  have w2 := windowTrace_cnt_schedAsap l (sortDirty s.dirtyComponents)
                  simp only [cntE_append]
                  omega
                · intro _
                  rw [hps]
                  simp only [windowTrace, List.cons_append, List.append_assoc]
                  exact ⟨p.1, _, rfl⟩
            next hnogrow =>
              have hp2 := Option.some.inj heqA
              rw [Prod.ext_iff] at hp2
              obtain ⟨hs1, htr1⟩ := hp2
              subst hs1
              subst htr1
              obtain ⟨h2d, h2f, h2q, hc⟩ :=
                flushStepB fuel ih _ s2 tr2 (by
                  intro hf
                  have hf2 : (s.asapEnqueued
                      || !(itemsAsap (sortDirty s.dirtyComponents)).isEmpty) = false := hf
                  show s.asapQueue ++ itemsAsap (sortDirty s.dirtyComponents) = []
                  rw [Bool.or_eq_false_iff] at hf2
                  obtain ⟨hf3, hf4⟩ := hf2
                  rw [hwf hf3]
                  cases hq2 : itemsAsap (sortDirty s.dirtyComponents) with
                  | nil => rfl
                  | cons x xs => simp [hq2] at hf4) heq2
              refine ⟨h2d, h2f, h2q, ?_, ?_⟩
              · intro l
                have e2 := hc l
                dsimp only at e2 ⊢
                simp only [cntE_append, cntL_append] at e2
                have w1 := windowTrace_cnt_runAsap l (sortDirty s.dirtyComponents)
                have w2 := windowTrace_cnt_schedAsap l (sortDirty s.dirtyComponents)
                simp only [cntE_append]
                omega
              · intro _
                rw [hps]
                simp only [windowTrace, List.cons_append, List.append_assoc]
                exact ⟨p.1, _, rfl⟩

/-- A concrete scheduler state: one dirty component (mount order 5)
whose reconciliation registers asap callback 3, and one already queued
asap callback 1 that registers asap callback 2 during the drain. -/
def flushEx : SState :=
  { dirtyComponents := [(5, Act.callAsap 3 Act.anoop)],
    asapQueue := [(1, Act.callAsap 2 Act.anoop)],
    asapEnqueued := true }

/-- Claim C5 witness: the flush on the concrete state processes the
dirty component first, then drains callback 1; callback 2, registered
during the drain, runs in a later iteration of the same flush; every
callback runs exactly once. -/
theorem flushBatchedUpdates_asap_exactly_once_witness :
    flushBatchedUpdates 6 flushEx
      = some ({ dirtyComponents := [], asapQueue := [], asapEnqueued := false },
          [Ev.procDirty 5, Ev.schedAsap 3, Ev.runAsap 1, Ev.schedAsap 2,
            Ev.runAsap 3, Ev.runAsap 2])
    ∧ FlushSpec flushEx
        ({ dirtyComponents := [], asapQueue := [], asapEnqueued := false },
          [Ev.procDirty 5, Ev.schedAsap 3, Ev.runAsap 1, Ev.schedAsap 2,
            Ev.runAsap 3, Ev.runAsap 2]) := by
  constructor
  · rfl
  · exact flushBatchedUpdates_asap_exactly_once 6 flushEx
      ({ dirtyComponents := [], asapQueue := [], asapEnqueued := false },
        [Ev.procDirty 5, Ev.schedAsap 3, Ev.runAsap 1, Ev.schedAsap 2,
          Ev.runAsap 3, Ev.runAsap 2])
      (fun hf => Bool.noConfusion hf) rfl
